import Mathlib

/-!
# Verification development for the Polynomial Evaluation Machine (PEM)

Shallow embedding of the PEM simulator:

* `src/pem/expr.rs` — expression trees, `weak_eval`, `strong_eval`
  (`EvaluatedExpr` with its `Add`/`Sub`/`Mul` impls);
* `src/pem/inflight_operation.rs` — `OperationLatency`, `OperationOutput`,
  `InflightOperation` and its constructors and orderings;
* `src/pem/instruction.rs` — the six-slot `Instruction` record;
* `src/pem/machine.rs` — the `Machine` engine: `validated_register`,
  `get_register_value`, `get_address_value`, `begin_execution`, `end_cycle`,
  `compute`.

Modelling conventions:

* `u32` is modelled as `Nat`; wrapping arithmetic is explicit `% 2^32`
  (the wrapping helpers are faithful to `u32::wrapping_*` for arguments
  below `2^32`, which is what the Rust types guarantee).
* `Rc<Expr>` sharing is semantically irrelevant (nodes are immutable), so
  expression DAGs are modelled as trees.
* `HashMap<Addr, ExprWrapper>` is modelled as an association list where
  `insert` conses (later bindings shadow earlier ones, as `HashMap::insert`
  replaces).
* Rust's `BinaryHeap<InflightOperation>` (a max-heap for the `Ord` given in
  `inflight_operation.rs`) is modelled by its sorted contents: a list kept in
  descending comparator order, `peek`/`pop` at the head.  `heapPush` inserts
  after existing comparator-equal elements; this matches the pop order of the
  standard library heap on the executions the repository's unit tests pin
  down (`test_register_data_race` in `machine.rs`).
* The `assert!(complete_by > self.pc)` in `end_cycle` (a programming-bug
  panic, unreachable from the public interface) is not modelled; the loop
  simply retires every operation with `complete_by ≤ pc + 1`, exactly as the
  code does whenever the assertion holds.
-/

/-- `2^32`, the modulus of the machine's wrapping `u32` arithmetic. -/
def U32SIZE : Nat := 4294967296

/-- `u32::wrapping_add`, on `Nat` representatives (faithful for arguments `< 2^32`). -/
def u32WrapAdd (a b : Nat) : Nat := (a + b) % U32SIZE

/-- `u32::wrapping_sub`, on `Nat` representatives (faithful for arguments `< 2^32`). -/
def u32WrapSub (a b : Nat) : Nat := (a + (U32SIZE - b)) % U32SIZE

/-- `u32::wrapping_mul`, on `Nat` representatives (faithful for arguments `< 2^32`). -/
def u32WrapMul (a b : Nat) : Nat := (a * b) % U32SIZE

/-- The expression tree of `expr.rs` (`enum Expr`): constants, symbolic
variables, and the three binary nodes.  `Rc` sharing is dropped (nodes are
immutable, so a tree is semantically equivalent to the shared DAG). -/
inductive Expr where
  | const : Nat → Expr
  | symbolicVariable : String → Expr
  | add : Expr → Expr → Expr
  | sub : Expr → Expr → Expr
  | mul : Expr → Expr → Expr
deriving DecidableEq, Repr

/-- `impl Display for Expr` in `expr.rs`: the fully parenthesised rendering
used by `ExprWrapper::weak_eval`. -/
def weakEval : Expr → String
  | .const c => toString c
  | .symbolicVariable s => s
  | .add lhs rhs => "(" ++ weakEval lhs ++ " + " ++ weakEval rhs ++ ")"
  | .sub lhs rhs => "(" ++ weakEval lhs ++ " - " ++ weakEval rhs ++ ")"
  | .mul lhs rhs => "(" ++ weakEval lhs ++ " * " ++ weakEval rhs ++ ")"

/-- `enum EvaluatedExprKind` in `expr.rs`. -/
inductive EvaluatedExprKind where
  | numeric : Nat → EvaluatedExprKind
  | value : String → EvaluatedExprKind
deriving DecidableEq, Repr

/-- `enum Precedence` in `expr.rs`. -/
inductive Precedence where
  | add
  | sub
  | mul
  | numericOrSymbolicVariable
deriving DecidableEq, Repr

/-- `struct EvaluatedExpr` in `expr.rs`. -/
structure EvaluatedExpr where
  kind : EvaluatedExprKind
  precedence : Precedence
deriving DecidableEq, Repr

/-- `impl Display for EvaluatedExpr` in `expr.rs`. -/
def EvaluatedExpr.render (e : EvaluatedExpr) : String :=
  match e.kind with
  | .numeric c => toString c
  | .value v => v

/-- `impl Add for EvaluatedExpr` in `expr.rs`. -/
def EvaluatedExpr.addEval (l r : EvaluatedExpr) : EvaluatedExpr :=
  match l.kind, r.kind with
  | .numeric a, .numeric b =>
      { kind := .numeric (u32WrapAdd a b), precedence := .numericOrSymbolicVariable }
  | _, _ =>
      { kind := .value (l.render ++ " + " ++ r.render), precedence := .add }

/-- `impl Sub for EvaluatedExpr` in `expr.rs`: the right operand is
re-parenthesised when it is itself an addition or subtraction. -/
def EvaluatedExpr.subEval (l r : EvaluatedExpr) : EvaluatedExpr :=
  match l.kind, r.kind, r.precedence with
  | .numeric a, .numeric b, _ =>
      { kind := .numeric (u32WrapSub a b), precedence := .numericOrSymbolicVariable }
  | _, _, .add =>
      { kind := .value (l.render ++ " - (" ++ r.render ++ ")"), precedence := .sub }
  | _, _, .sub =>
      { kind := .value (l.render ++ " - (" ++ r.render ++ ")"), precedence := .sub }
  | _, _, _ =>
      { kind := .value (l.render ++ " - " ++ r.render), precedence := .sub }

/-- `impl Mul for EvaluatedExpr` in `expr.rs`: each operand is wrapped in
parentheses iff its precedence tag is `Add` or `Sub`. -/
def EvaluatedExpr.mulEval (l r : EvaluatedExpr) : EvaluatedExpr :=
  match l.kind, r.kind with
  | .numeric a, .numeric b =>
      { kind := .numeric (u32WrapMul a b), precedence := .numericOrSymbolicVariable }
  | _, _ =>
      let ls := match l.precedence with
        | .add => "(" ++ l.render ++ ")"
        | .sub => "(" ++ l.render ++ ")"
        | _ => l.render
      let rs := match r.precedence with
        | .add => "(" ++ r.render ++ ")"
        | .sub => "(" ++ r.render ++ ")"
        | _ => r.render
      { kind := .value (ls ++ " * " ++ rs), precedence := .mul }

/-- `impl From<&RcExpr> for EvaluatedExpr` in `expr.rs`: the recursive fold
that drives `ExprWrapper::strong_eval`. -/
def evaluatedExprFrom : Expr → EvaluatedExpr
  | .const c =>
      { kind := .numeric c, precedence := .numericOrSymbolicVariable }
  | .symbolicVariable v =>
      { kind := .value v, precedence := .numericOrSymbolicVariable }
  | .add lhs rhs => (evaluatedExprFrom lhs).addEval (evaluatedExprFrom rhs)
  | .sub lhs rhs => (evaluatedExprFrom lhs).subEval (evaluatedExprFrom rhs)
  | .mul lhs rhs => (evaluatedExprFrom lhs).mulEval (evaluatedExprFrom rhs)

/-- `ExprWrapper::strong_eval` in `expr.rs`. -/
def strongEval (e : Expr) : String := (evaluatedExprFrom e).render

/-- Whether a strong-evaluation result folded to a numeric constant. -/
def EvaluatedExpr.isNumeric (e : EvaluatedExpr) : Bool :=
  match e.kind with
  | .numeric _ => true
  | .value _ => false

/-- Trees all of whose leaves are numeric constants (with genuine `u32`
values, i.e. below `2^32`). -/
def isNumericTree : Expr → Bool
  | .const c => c < U32SIZE
  | .symbolicVariable _ => false
  | .add lhs rhs => isNumericTree lhs && isNumericTree rhs
  | .sub lhs rhs => isNumericTree lhs && isNumericTree rhs
  | .mul lhs rhs => isNumericTree lhs && isNumericTree rhs

/-- The exact 32-bit-wrapping value of an arithmetic tree, as an element of
`ZMod 2^32` (symbolic leaves, excluded by `isNumericTree`, are mapped to 0). -/
def wrapVal : Expr → ZMod U32SIZE
  | .const c => (c : ZMod U32SIZE)
  | .symbolicVariable _ => 0
  | .add lhs rhs => wrapVal lhs + wrapVal rhs
  | .sub lhs rhs => wrapVal lhs - wrapVal rhs
  | .mul lhs rhs => wrapVal lhs * wrapVal rhs

instance : NeZero U32SIZE := ⟨by decide⟩

/-! `struct OperationLatency` in `inflight_operation.rs`: the fixed latency,
in cycles, of each opcode. -/

namespace OperationLatency

def LDI : Nat := 1
def LDR : Nat := 5
def STR : Nat := 5
def ADD : Nat := 2
def SUB : Nat := 2
def MUL : Nat := 10

end OperationLatency

/-- `enum OperationOutput` in `inflight_operation.rs`: the eventual write of
an in-flight operation.  `Reg` and `Addr` (`u32` newtypes) are modelled as
`Nat`. -/
inductive OperationOutput where
  | writeToRegister : Nat → Expr → OperationOutput
  | writeToMemory : Nat → Expr → OperationOutput
deriving DecidableEq, Repr

/-- `u32::cmp` (as used through `Ord` on the `Reg`/`Addr` newtype payloads). -/
def natCmp (a b : Nat) : Ordering :=
  if a < b then .lt else if b < a then .gt else .eq

/-- `impl Ord for OperationOutput`: register writes compare below memory
writes; within a kind, by destination id.  Values are ignored. -/
def OperationOutput.cmp : OperationOutput → OperationOutput → Ordering
  | .writeToRegister dst1 _, .writeToRegister dst2 _ => natCmp dst1 dst2
  | .writeToMemory addr1 _, .writeToMemory addr2 _ => natCmp addr1 addr2
  | .writeToRegister _ _, .writeToMemory _ _ => .lt
  | .writeToMemory _ _, .writeToRegister _ _ => .gt

/-- `impl PartialEq for OperationOutput`: keyed on the destination only. -/
def OperationOutput.beq : OperationOutput → OperationOutput → Bool
  | .writeToRegister dst1 _, .writeToRegister dst2 _ => dst1 == dst2
  | .writeToMemory addr1 _, .writeToMemory addr2 _ => addr1 == addr2
  | _, _ => false

/-- `struct InflightOperation` in `inflight_operation.rs`. -/
structure InflightOperation where
  output : OperationOutput
  complete_by : Nat
  started_at : Nat
deriving DecidableEq, Repr

/-- `impl Ord for InflightOperation`: `complete_by` compared *reversed* (so
the std max-heap pops the smallest `complete_by` first), ties broken by the
un-reversed `OperationOutput` order. -/
def InflightOperation.cmp (a b : InflightOperation) : Ordering :=
  match natCmp a.complete_by b.complete_by with
  | .eq => a.output.cmp b.output
  | .lt => .gt
  | .gt => .lt

namespace InflightOperation

/-- `InflightOperation::from_ldi`. -/
def from_ldi (cycle dst constant : Nat) : InflightOperation :=
  { output := .writeToRegister dst (.const constant)
    complete_by := cycle + OperationLatency.LDI
    started_at := cycle }

/-- `InflightOperation::from_ldr` (`addr_value` is the memory value read at
issue). -/
def from_ldr (cycle dst : Nat) (addr_value : Expr) : InflightOperation :=
  { output := .writeToRegister dst addr_value
    complete_by := cycle + OperationLatency.LDR
    started_at := cycle }

/-- `InflightOperation::from_str` (`src_value` is the register value read at
issue). -/
def from_str (cycle : Nat) (src_value : Expr) (addr : Nat) : InflightOperation :=
  { output := .writeToMemory addr src_value
    complete_by := cycle + OperationLatency.STR
    started_at := cycle }

/-- `InflightOperation::from_add`: NB `src2` is the left-hand side of the
constructed sum and `src1` the right-hand side. -/
def from_add (cycle dst : Nat) (src1_value src2_value : Expr) : InflightOperation :=
  { output := .writeToRegister dst (.add src2_value src1_value)
    complete_by := cycle + OperationLatency.ADD
    started_at := cycle }

/-- `InflightOperation::from_sub`. -/
def from_sub (cycle dst : Nat) (src1_value src2_value : Expr) : InflightOperation :=
  { output := .writeToRegister dst (.sub src1_value src2_value)
    complete_by := cycle + OperationLatency.SUB
    started_at := cycle }

/-- `InflightOperation::from_mul`. -/
def from_mul (cycle dst : Nat) (src1_value src2_value : Expr) : InflightOperation :=
  { output := .writeToRegister dst (.mul src1_value src2_value)
    complete_by := cycle + OperationLatency.MUL
    started_at := cycle }

end InflightOperation

/-- `BinaryHeap::push` on the heap's sorted contents: the new element is
inserted in descending comparator order, after comparator-equal elements
(matching the std heap's pop order on the repository's pinned executions). -/
def heapPush (l : List InflightOperation) (x : InflightOperation) : List InflightOperation :=
  match l with
  | [] => [x]
  | y :: ys => if x.cmp y = .gt then x :: y :: ys else y :: heapPush ys x

/-- `struct Instruction` in `instruction.rs`: six optional operation slots. -/
structure Instruction where
  ldi : Option (Nat × Nat)
  ldr : Option (Nat × Nat)
  str : Option (Nat × Nat)
  add : Option (Nat × Nat × Nat)
  sub : Option (Nat × Nat × Nat)
  mul : Option (Nat × Nat × Nat)
deriving DecidableEq, Repr

namespace Instruction

/-- `Instruction::new`. -/
def new : Instruction := ⟨none, none, none, none, none, none⟩

/-- `Instruction::with_ldi`. -/
def with_ldi (i : Instruction) (dst constant : Nat) : Instruction :=
  { i with ldi := some (dst, constant) }

/-- `Instruction::with_ldr`. -/
def with_ldr (i : Instruction) (dst addr : Nat) : Instruction :=
  { i with ldr := some (dst, addr) }

/-- `Instruction::with_str`. -/
def with_str (i : Instruction) (src addr : Nat) : Instruction :=
  { i with str := some (src, addr) }

/-- `Instruction::with_add`. -/
def with_add (i : Instruction) (dst src1 src2 : Nat) : Instruction :=
  { i with add := some (dst, src1, src2) }

/-- `Instruction::with_sub`. -/
def with_sub (i : Instruction) (dst src1 src2 : Nat) : Instruction :=
  { i with sub := some (dst, src1, src2) }

/-- `Instruction::with_mul`. -/
def with_mul (i : Instruction) (dst src1 src2 : Nat) : Instruction :=
  { i with mul := some (dst, src1, src2) }

end Instruction

/-- `enum ComputeError` in `machine.rs`. -/
inductive ComputeError where
  | Terminated
  | InvalidRegister (reg : Nat) (pc : Nat)
  | UninitializedRegister (reg : Nat) (pc : Nat)
  | UninitializedMemory (addr : Nat) (pc : Nat)
  | RegisterDataRace (reg : Nat) (pc : Nat) (inst1 : Nat) (inst2 : Nat)
  | MemoryDataRace (addr : Nat) (pc : Nat) (inst1 : Nat) (inst2 : Nat)
deriving DecidableEq, Repr

/-- `const REGISTER_COUNT: usize = 8` in `machine.rs`. -/
def REGISTER_COUNT : Nat := 8

/-- `struct Machine` in `machine.rs`.  The register file is the `Vec` of
eight optional values; memory (`HashMap<Addr, _>`) is an association list
whose first binding for a key is current; the pending `BinaryHeap` is its
sorted contents (see `heapPush`). -/
structure Machine where
  regs : List (Option Expr)
  mem : List (Nat × Expr)
  pc : Nat
  pendingOperations : List InflightOperation
  allowDataRace : Bool
deriving DecidableEq, Repr

namespace Machine

/-- `Machine::new`. -/
def new (mem : List (Nat × Expr)) : Machine :=
  { regs := List.replicate REGISTER_COUNT none
    mem := mem
    pc := 0
    pendingOperations := []
    allowDataRace := false }

/-- `Machine::validated_register`. -/
def validatedRegister (m : Machine) (reg : Nat) : Except ComputeError Nat :=
  if reg ≥ REGISTER_COUNT then .error (.InvalidRegister reg m.pc) else .ok reg

/-- `Machine::get_register_value`: a `Vec::get` miss (register id out of
range) is `InvalidRegister`; an empty slot is `UninitializedRegister`. -/
def getRegisterValue (m : Machine) (reg : Nat) : Except ComputeError Expr :=
  match m.regs.get? reg with
  | none => .error (.InvalidRegister reg m.pc)
  | some none => .error (.UninitializedRegister reg m.pc)
  | some (some v) => .ok v

/-- `Machine::get_address_value`. -/
def getAddressValue (m : Machine) (addr : Nat) : Except ComputeError Expr :=
  match m.mem.lookup addr with
  | none => .error (.UninitializedMemory addr m.pc)
  | some v => .ok v

/-- The `ldi` arm of `Machine::begin_execution`. -/
def pushLdi (m : Machine) (slot : Option (Nat × Nat)) (pending : List InflightOperation) :
    Option ComputeError × List InflightOperation :=
  match slot with
  | none => (none, pending)
  | some (dst, constant) =>
    match m.validatedRegister dst with
    | .error e => (some e, pending)
    | .ok dst => (none, heapPush pending (InflightOperation.from_ldi m.pc dst constant))

/-- The `ldr` arm of `Machine::begin_execution` (destination validated, then
the memory operand read, in the source's evaluation order). -/
def pushLdr (m : Machine) (slot : Option (Nat × Nat)) (pending : List InflightOperation) :
    Option ComputeError × List InflightOperation :=
  match slot with
  | none => (none, pending)
  | some (dst, addr) =>
    match m.validatedRegister dst with
    | .error e => (some e, pending)
    | .ok dst =>
      match m.getAddressValue addr with
      | .error e => (some e, pending)
      | .ok v => (none, heapPush pending (InflightOperation.from_ldr m.pc dst v))

/-- The `str` arm of `Machine::begin_execution` (the source register is read
through `get_register_value`, which reports ids `≥ 8` as `InvalidRegister`). -/
def pushStr (m : Machine) (slot : Option (Nat × Nat)) (pending : List InflightOperation) :
    Option ComputeError × List InflightOperation :=
  match slot with
  | none => (none, pending)
  | some (src, addr) =>
    match m.getRegisterValue src with
    | .error e => (some e, pending)
    | .ok v => (none, heapPush pending (InflightOperation.from_str m.pc v addr))

/-- The `add` arm of `Machine::begin_execution` (destination validated, then
`src1` read, then `src2`). -/
def pushAdd (m : Machine) (slot : Option (Nat × Nat × Nat)) (pending : List InflightOperation) :
    Option ComputeError × List InflightOperation :=
  match slot with
  | none => (none, pending)
  | some (dst, src1, src2) =>
    match m.validatedRegister dst with
    | .error e => (some e, pending)
    | .ok dst =>
      match m.getRegisterValue src1 with
      | .error e => (some e, pending)
      | .ok v1 =>
        match m.getRegisterValue src2 with
        | .error e => (some e, pending)
        | .ok v2 => (none, heapPush pending (InflightOperation.from_add m.pc dst v1 v2))

/-- The `sub` arm of `Machine::begin_execution`. -/
def pushSub (m : Machine) (slot : Option (Nat × Nat × Nat)) (pending : List InflightOperation) :
    Option ComputeError × List InflightOperation :=
  match slot with
  | none => (none, pending)
  | some (dst, src1, src2) =>
    match m.validatedRegister dst with
    | .error e => (some e, pending)
    | .ok dst =>
      match m.getRegisterValue src1 with
      | .error e => (some e, pending)
      | .ok v1 =>
        match m.getRegisterValue src2 with
        | .error e => (some e, pending)
        | .ok v2 => (none, heapPush pending (InflightOperation.from_sub m.pc dst v1 v2))

/-- The `mul` arm of `Machine::begin_execution`. -/
def pushMul (m : Machine) (slot : Option (Nat × Nat × Nat)) (pending : List InflightOperation) :
    Option ComputeError × List InflightOperation :=
  match slot with
  | none => (none, pending)
  | some (dst, src1, src2) =>
    match m.validatedRegister dst with
    | .error e => (some e, pending)
    | .ok dst =>
      match m.getRegisterValue src1 with
      | .error e => (some e, pending)
      | .ok v1 =>
        match m.getRegisterValue src2 with
        | .error e => (some e, pending)
        | .ok v2 => (none, heapPush pending (InflightOperation.from_mul m.pc dst v1 v2))

/-- Sequencing of the slot arms: a failed arm aborts the instruction but
keeps the operations already pushed (the Rust code mutates
`self.pending_operations` in place and `?`-returns). -/
def andThenPush (acc : Option ComputeError × List InflightOperation)
    (f : List InflightOperation → Option ComputeError × List InflightOperation) :
    Option ComputeError × List InflightOperation :=
  match acc with
  | (some e, pending) => (some e, pending)
  | (none, pending) => f pending

/-- `Machine::begin_execution`: issue every present slot in the fixed order
ldi, ldr, str, add, sub, mul, reading all operands from the entry state `m`
(registers and memory are only written by `end_cycle`). -/
def beginExecution (m : Machine) (inst : Instruction) : Option ComputeError × Machine :=
  let r :=
    andThenPush (andThenPush (andThenPush (andThenPush (andThenPush
      (m.pushLdi inst.ldi m.pendingOperations)
      (m.pushLdr inst.ldr)) (m.pushStr inst.str)) (m.pushAdd inst.add))
      (m.pushSub inst.sub)) (m.pushMul inst.mul)
  (r.1, { m with pendingOperations := r.2 })

end Machine

/-- Applying an `OperationOutput` to the register file and memory (the write
step of `Machine::end_cycle`). -/
def applyOutput (regs : List (Option Expr)) (mem : List (Nat × Expr)) :
    OperationOutput → List (Option Expr) × List (Nat × Expr)
  | .writeToRegister reg v => (regs.set reg (some v), mem)
  | .writeToMemory addr v => (regs, (addr, v) :: mem)

/-- The data-race error built in `Machine::end_cycle` when two adjacent
retirements target the same destination. -/
def raceError (pc : Nat) (prev next : InflightOperation) : ComputeError :=
  match next.output with
  | .writeToRegister reg _ => .RegisterDataRace reg pc prev.started_at next.started_at
  | .writeToMemory addr _ => .MemoryDataRace addr pc prev.started_at next.started_at

/-- Result of the retire loop of `Machine::end_cycle`.  `popped` records, in
order, the operations popped from the heap during this cycle (the retirement
trace; it is specification-only and not part of the machine state). -/
structure EndCycleResult where
  err : Option ComputeError
  pending : List InflightOperation
  regs : List (Option Expr)
  mem : List (Nat × Expr)
  popped : List InflightOperation
deriving DecidableEq, Repr

/-- The `while let Some(next) = peek` loop of `Machine::end_cycle`: pop every
operation with `complete_by ≤ pc + 1`; a pop whose destination equals the
previous pop's destination is a data race (fatal unless `allow` is set);
otherwise the write is applied. -/
def endCycleLoop (allow : Bool) (pc : Nat) (prev : Option InflightOperation)
    (pending : List InflightOperation) (regs : List (Option Expr))
    (mem : List (Nat × Expr)) : EndCycleResult :=
  match pending with
  | [] => ⟨none, [], regs, mem, []⟩
  | next :: rest =>
    if pc + 1 < next.complete_by then
      ⟨none, next :: rest, regs, mem, []⟩
    else
      let proceed : EndCycleResult :=
        let rm := applyOutput regs mem next.output
        let r := endCycleLoop allow pc (some next) rest rm.1 rm.2
        { r with popped := next :: r.popped }
      match prev with
      | some p =>
        if p.output.beq next.output && !allow then
          ⟨some (raceError pc p next), rest, regs, mem, [next]⟩
        else proceed
      | none => proceed

namespace Machine

/-- `Machine::end_cycle`: run the retire loop, then advance the clock (the
clock is not advanced when the loop aborts with a data-race error, matching
the early `return Err`). -/
def endCycle (m : Machine) : Option ComputeError × Machine :=
  let r := endCycleLoop m.allowDataRace m.pc none m.pendingOperations m.regs m.mem
  match r.err with
  | some e => (some e, { m with pendingOperations := r.pending, regs := r.regs, mem := r.mem })
  | none =>
      (none,
        { m with
          pendingOperations := r.pending
          regs := r.regs
          mem := r.mem
          pc := m.pc + 1 })

/-- The retirement trace of the next `end_cycle` on `m`: the operations the
cycle pops from the heap, in pop order. -/
def endCycleTrace (m : Machine) : List InflightOperation :=
  (endCycleLoop m.allowDataRace m.pc none m.pendingOperations m.regs m.mem).popped

/-- The per-instruction loop of `Machine::compute`: issue, then end the
cycle, propagating the first error (with the machine state it left). -/
def runProgram (m : Machine) : List Instruction → Option ComputeError × Machine
  | [] => (none, m)
  | inst :: rest =>
    match m.beginExecution inst with
    | (some e, m') => (some e, m')
    | (none, m') =>
      match m'.endCycle with
      | (some e, m2) => (some e, m2)
      | (none, m2) => m2.runProgram rest

/-- Largest `complete_by` in the heap (0 when empty); used to bound the
drain loop. -/
def maxCompleteBy (l : List InflightOperation) : Nat :=
  l.foldr (fun op acc => max op.complete_by acc) 0

/-- The `while self.pending_operations.peek().is_some()` drain loop of
`Machine::compute`, written with explicit fuel.  Every successful
`end_cycle` advances `pc` by one and pops all operations with
`complete_by ≤ pc + 1`, so once `pc` exceeds the largest `complete_by` the
heap is empty: `maxCompleteBy + 2` cycles always suffice, and the fuel the
wrapper `drain` supplies is never exhausted. -/
def drainLoop : Nat → Machine → Option ComputeError × Machine
  | 0, m => (none, m)
  | fuel + 1, m =>
    if m.pendingOperations.isEmpty then (none, m)
    else
      match m.endCycle with
      | (some e, m') => (some e, m')
      | (none, m') => drainLoop fuel m'

/-- The drain phase of `Machine::compute` (see `drainLoop` for the fuel). -/
def drain (m : Machine) : Option ComputeError × Machine :=
  drainLoop (maxCompleteBy m.pendingOperations + 2) m

/-- `Machine::compute`: the `pc != 0` single-use guard, the per-instruction
issue/retire loop, the drain loop, and the final read of register 0. -/
def compute (m : Machine) (program : List Instruction) :
    Except ComputeError Expr × Machine :=
  if m.pc ≠ 0 then (.error .Terminated, m)
  else
    match m.runProgram program with
    | (some e, m') => (.error e, m')
    | (none, m') =>
      match m'.drain with
      | (some e, m2) => (.error e, m2)
      | (none, m2) =>
        match m2.getRegisterValue 0 with
        | .error e => (.error e, m2)
        | .ok v => (.ok v, m2)

end Machine

/-- The expression payload an `OperationOutput` will write. -/
def OperationOutput.value : OperationOutput → Expr
  | .writeToRegister _ v => v
  | .writeToMemory _ v => v

/-- The heap invariant of the sorted-contents model: the list is in
descending `InflightOperation.cmp` order (the head is the max-heap's top). -/
def heapOrdered (l : List InflightOperation) : Prop :=
  l.Pairwise (fun a b => a.cmp b ≠ .lt)

instance (l : List InflightOperation) : Decidable (heapOrdered l) :=
  List.instDecidablePairwise l

/-- The actual retire order of the engine: ascending `complete_by`; among
operations completing on the same cycle, memory writes before register
writes, and within each kind descending destination id. -/
def retiresNoLaterThan (a b : InflightOperation) : Prop :=
  a.complete_by < b.complete_by ∨
    (a.complete_by = b.complete_by ∧
      match a.output, b.output with
      | .writeToMemory _ _, .writeToRegister _ _ => True
      | .writeToRegister r1 _, .writeToRegister r2 _ => r2 ≤ r1
      | .writeToMemory a1 _, .writeToMemory a2 _ => a2 ≤ a1
      | .writeToRegister _ _, .writeToMemory _ _ => False)

/-- The older inline expression renderer still present at the bottom of
`pem/mod.rs` (`ExprWrapper::eval_expr`): unlike `expr.rs`'s `weak_eval` it
renders an `Add` node with its operands swapped.  It is modelled here only to
document that discrepancy; the machine's weak/strong evaluation used by the
repository's tests and parser (`weak_eval`, `strong_eval`,
`from_symbolic_variable`) is the `expr.rs` implementation embedded above.
The in-place memoisation (`*expr.borrow_mut() = Expr::Value(..)`) caches the
very string being returned, so it does not affect the rendered result. -/
def modEvalExpr : Expr → String
  | .const c => toString c
  | .symbolicVariable s => s
  | .add src1 src2 => "(" ++ modEvalExpr src2 ++ " + " ++ modEvalExpr src1 ++ ")"
  | .sub src1 src2 => "(" ++ modEvalExpr src1 ++ " - " ++ modEvalExpr src2 ++ ")"
  | .mul src1 src2 => "(" ++ modEvalExpr src1 ++ " * " ++ modEvalExpr src2 ++ ")"

/-- The program of `machine.rs`'s `test_register_data_race` (and of spec
scenario 4): `[ldi r0 1; add r1 r0 r0; ldi r1 3]`. -/
def raceProgram : List Instruction :=
  [Instruction.new.with_ldi 0 1,
   Instruction.new.with_add 1 0 0,
   Instruction.new.with_ldi 1 3]

/-- A program whose sixth cycle retires three operations with equal
`complete_by`: a memory write (the `str`), then registers 2 and 1: `ldi r0 1`;
`(ldr r1 0 ∥ str r0 9)`; two bubbles; `add r2 r0 r0`. -/
def mixedRetireProgram : List Instruction :=
  [Instruction.new.with_ldi 0 1,
   (Instruction.new.with_ldr 1 0).with_str 0 9,
   Instruction.new,
   Instruction.new,
   Instruction.new.with_add 2 0 0]

/-- The machine state reached after issuing all of `mixedRetireProgram`
(memory cell 0 holds the symbol `A`); its pending heap retires on the next
cycle. -/
def mixedRetireMachine : Machine :=
  ((Machine.new [(0, Expr.symbolicVariable "A")]).runProgram mixedRetireProgram).2

/-- A two-successive-`str` program: `ldi r0 c`; `str r0 a`; `str r0 a`. -/
def twoStrProgram (c a : Nat) : List Instruction :=
  [Instruction.new.with_ldi 0 c,
   Instruction.new.with_str 0 a,
   Instruction.new.with_str 0 a]

/-- The machine state after `compute` of the single-instruction program
`[ldi r0 1]` on a fresh machine (used to witness the single-use guard). -/
def postLdiMachine : Machine :=
  { regs := [some (.const 1), none, none, none, none, none, none, none]
    mem := []
    pc := 1
    pendingOperations := []
    allowDataRace := false }

/-- A machine holding the symbol `X` in register 0 (otherwise fresh). -/
def c5WitnessMachine : Machine :=
  { regs := [some (.symbolicVariable "X"), none, none, none, none, none, none, none]
    mem := []
    pc := 0
    pendingOperations := []
    allowDataRace := false }

/-- The instruction `{ldi r0 7 ∥ add r1 r0 r0}`: its `add` must read `r0`
from the start-of-cycle state, not the `ldi`'s pending write. -/
def c5WitnessInst : Instruction :=
  (Instruction.new.with_ldi 0 7).with_add 1 0 0

deriving instance DecidableEq for Except

/-! ## Helper lemmas -/

theorem addEval_isNumeric (l r : EvaluatedExpr) :
    (l.addEval r).isNumeric = (l.isNumeric && r.isNumeric) := by
  rcases l with ⟨lk, lp⟩
  rcases r with ⟨rk, rp⟩
  cases lk <;> cases rk <;> rfl

theorem subEval_isNumeric (l r : EvaluatedExpr) :
    (l.subEval r).isNumeric = (l.isNumeric && r.isNumeric) := by
  rcases l with ⟨lk, lp⟩
  rcases r with ⟨rk, rp⟩
  cases lk <;> cases rk <;> cases rp <;> rfl

theorem mulEval_isNumeric (l r : EvaluatedExpr) :
    (l.mulEval r).isNumeric = (l.isNumeric && r.isNumeric) := by
  rcases l with ⟨lk, lp⟩
  rcases r with ⟨rk, rp⟩
  cases lk <;> cases rk <;> rfl

theorem zmodVal_add (x y : ZMod U32SIZE) :
    (x + y).val = u32WrapAdd x.val y.val := by
  rw [ZMod.val_add]
  rfl

theorem zmodVal_mul (x y : ZMod U32SIZE) :
    (x * y).val = u32WrapMul x.val y.val := by
  rw [ZMod.val_mul]
  rfl

theorem zmodVal_sub (x y : ZMod U32SIZE) :
    (x - y).val = u32WrapSub x.val y.val := by
  have hy : y.val ≤ U32SIZE := le_of_lt (ZMod.val_lt y)
  have h1 : x - y = ((x.val + (U32SIZE - y.val) : Nat) : ZMod U32SIZE) := by
    push_cast [Nat.cast_sub hy]
    rw [ZMod.natCast_self, ZMod.natCast_rightInverse x, ZMod.natCast_rightInverse y]
    ring
  rw [h1, ZMod.val_natCast]
  rfl

theorem mem_heapPush_self (l : List InflightOperation) (x : InflightOperation) :
    x ∈ heapPush l x := by
  induction l with
  | nil => exact List.mem_singleton_self x
  | cons y ys ih =>
    rw [heapPush]
    split
    · exact List.mem_cons_self x (y :: ys)
    · exact List.mem_cons_of_mem y ih

theorem mem_heapPush_of_mem {l : List InflightOperation} {y : InflightOperation}
    (x : InflightOperation) (h : y ∈ l) : y ∈ heapPush l x := by
  induction l with
  | nil => cases h
  | cons z zs ih =>
    rw [heapPush]
    split
    · exact List.mem_cons_of_mem x h
    · rcases List.mem_cons.mp h with h1 | h2
      · exact h1 ▸ List.mem_cons_self z (heapPush zs x)
      · exact List.mem_cons_of_mem z (ih h2)

theorem endCycleLoop_popped_prefix (allow : Bool) (pc : Nat) :
    ∀ (pending : List InflightOperation) (prev : Option InflightOperation)
      (regs : List (Option Expr)) (mem : List (Nat × Expr)),
      (endCycleLoop allow pc prev pending regs mem).popped <+: pending := by
  intro pending
  induction pending with
  | nil =>
    intro prev regs mem
    exact ⟨[], rfl⟩
  | cons next rest ih =>
    intro prev regs mem
    by_cases hcb : pc + 1 < next.complete_by
    · simp only [endCycleLoop, if_pos hcb]
      exact ⟨next :: rest, rfl⟩
    · have hstep : ∀ t, (endCycleLoop allow pc (some next) rest
            (applyOutput regs mem next.output).1 (applyOutput regs mem next.output).2).popped
            ++ t = rest →
          (next :: (endCycleLoop allow pc (some next) rest
            (applyOutput regs mem next.output).1 (applyOutput regs mem next.output).2).popped)
            ++ t = next :: rest := by
        intro t ht
        rw [List.cons_append, ht]
      cases prev with
      | none =>
        simp only [endCycleLoop, if_neg hcb]
        obtain ⟨t, ht⟩ := ih (some next) (applyOutput regs mem next.output).1
          (applyOutput regs mem next.output).2
        exact ⟨t, hstep t ht⟩
      | some p =>
        by_cases hrace : (p.output.beq next.output && !allow) = true
        · simp only [endCycleLoop, if_neg hcb, hrace, if_true]
          exact ⟨rest, rfl⟩
        · simp only [endCycleLoop, if_neg hcb, hrace, if_false]
          obtain ⟨t, ht⟩ := ih (some next) (applyOutput regs mem next.output).1
            (applyOutput regs mem next.output).2
          exact ⟨t, hstep t ht⟩

theorem endCycleLoop_popped_le (allow : Bool) (pc : Nat) :
    ∀ (pending : List InflightOperation) (prev : Option InflightOperation)
      (regs : List (Option Expr)) (mem : List (Nat × Expr))
      (op : InflightOperation),
      op ∈ (endCycleLoop allow pc prev pending regs mem).popped →
      op.complete_by ≤ pc + 1 := by
  intro pending
  induction pending with
  | nil =>
    intro prev regs mem op hop
    simp only [endCycleLoop] at hop
    cases hop
  | cons next rest ih =>
    intro prev regs mem op hop
    by_cases hcb : pc + 1 < next.complete_by
    · simp only [endCycleLoop, if_pos hcb] at hop
      cases hop
    · have hnext : next.complete_by ≤ pc + 1 := Nat.le_of_not_lt hcb
      have hstep :
          op ∈ next :: (endCycleLoop allow pc (some next) rest
            (applyOutput regs mem next.output).1 (applyOutput regs mem next.output).2).popped →
          op.complete_by ≤ pc + 1 := by
        intro hmem
        rcases List.mem_cons.mp hmem with h1 | h2
        · exact h1 ▸ hnext
        · exact ih (some next) _ _ op h2
      cases prev with
      | none =>
        simp only [endCycleLoop, if_neg hcb] at hop
        exact hstep hop
      | some p =>
        by_cases hrace : (p.output.beq next.output && !allow) = true
        · simp only [endCycleLoop, if_neg hcb, hrace, if_true] at hop
          rcases List.mem_singleton.mp hop with h1
          exact h1 ▸ hnext
        · simp only [endCycleLoop, if_neg hcb, hrace, if_false] at hop
          exact hstep hop

theorem cmp_ne_lt_retiresNoLaterThan (a b : InflightOperation)
    (h : a.cmp b ≠ .lt) : retiresNoLaterThan a b := by
  unfold InflightOperation.cmp natCmp at h
  by_cases h1 : a.complete_by < b.complete_by
  · exact Or.inl h1
  · rw [if_neg h1] at h
    by_cases h2 : b.complete_by < a.complete_by
    · rw [if_pos h2] at h
      exact absurd rfl h
    · rw [if_neg h2] at h
      have h' : a.output.cmp b.output ≠ .lt := h
      refine Or.inr ⟨by omega, ?_⟩
      rcases hao : a.output with ⟨r1, v1⟩ | ⟨a1, v1⟩ <;>
        rcases hbo : b.output with ⟨r2, v2⟩ | ⟨a2, v2⟩ <;>
        rw [hao, hbo] at h'
      · have h3 : (if r1 < r2 then Ordering.lt
            else if r2 < r1 then Ordering.gt else Ordering.eq) ≠ Ordering.lt := h'
        show r2 ≤ r1
        by_cases h4 : r1 < r2
        · rw [if_pos h4] at h3
          exact absurd rfl h3
        · omega
      · exact absurd rfl h'
      · trivial
      · have h3 : (if a1 < a2 then Ordering.lt
            else if a2 < a1 then Ordering.gt else Ordering.eq) ≠ Ordering.lt := h'
        show a2 ≤ a1
        by_cases h4 : a1 < a2
        · rw [if_pos h4] at h3
          exact absurd rfl h3
        · omega

theorem beginExecution_pc (m : Machine) (i : Instruction) :
    (m.beginExecution i).2.pc = m.pc := rfl

theorem beginExecution_regs (m : Machine) (i : Instruction) :
    (m.beginExecution i).2.regs = m.regs := rfl

theorem beginExecution_mem (m : Machine) (i : Instruction) :
    (m.beginExecution i).2.mem = m.mem := rfl

theorem endCycle_pc_ge (m : Machine) : m.pc ≤ m.endCycle.2.pc := by
  unfold Machine.endCycle
  cases herr : (endCycleLoop m.allowDataRace m.pc none m.pendingOperations m.regs m.mem).err with
  | some e =>
    simp only [herr]
    exact Nat.le_refl _
  | none =>
    simp only [herr]
    exact Nat.le_succ _

theorem endCycle_ok_pc (m : Machine) (h : m.endCycle.1 = none) :
    m.endCycle.2.pc = m.pc + 1 := by
  unfold Machine.endCycle at h ⊢
  cases herr : (endCycleLoop m.allowDataRace m.pc none m.pendingOperations m.regs m.mem).err with
  | some e =>
    simp only [herr] at h
    exact absurd h (Option.some_ne_none e)
  | none =>
    simp only [herr]

theorem runProgram_pc_ge (p : List Instruction) :
    ∀ m : Machine, m.pc ≤ (m.runProgram p).2.pc := by
  induction p with
  | nil => intro m; exact Nat.le_refl _
  | cons i rest ih =>
    intro m
    rcases hbe : m.beginExecution i with ⟨e1, m1⟩
    have hm1 : m1.pc = m.pc := by
      have h0 := beginExecution_pc m i
      rw [hbe] at h0
      exact h0
    rw [Machine.runProgram, hbe]
    cases e1 with
    | some e =>
      show m.pc ≤ m1.pc
      omega
    | none =>
      show m.pc ≤ (match m1.endCycle with
        | (some e, m2) => (some e, m2)
        | (none, m2) => m2.runProgram rest).2.pc
      rcases hec : m1.endCycle with ⟨e2, m2⟩
      have hm2 : m1.pc ≤ m2.pc := by
        have h0 := endCycle_pc_ge m1
        rw [hec] at h0
        exact h0
      cases e2 with
      | some e =>
        show m.pc ≤ m2.pc
        omega
      | none =>
        show m.pc ≤ (m2.runProgram rest).2.pc
        have h0 := ih m2
        omega

theorem runProgram_cons_ok_pc (m : Machine) (i : Instruction) (rest : List Instruction)
    (h : (m.runProgram (i :: rest)).1 = none) :
    m.pc + 1 ≤ (m.runProgram (i :: rest)).2.pc := by
  rcases hbe : m.beginExecution i with ⟨e1, m1⟩
  have hm1 : m1.pc = m.pc := by
    have h0 := beginExecution_pc m i
    rw [hbe] at h0
    exact h0
  rw [Machine.runProgram, hbe] at h ⊢
  cases e1 with
  | some e => simp at h
  | none =>
    replace h : (match m1.endCycle with
      | (some e, m2) => (some e, m2)
      | (none, m2) => m2.runProgram rest).1 = none := h
    show m.pc + 1 ≤ (match m1.endCycle with
      | (some e, m2) => (some e, m2)
      | (none, m2) => m2.runProgram rest).2.pc
    rcases hec : m1.endCycle with ⟨e2, m2⟩
    rw [hec] at h
    cases e2 with
    | some e => simp at h
    | none =>
      have hm2 : m2.pc = m1.pc + 1 := by
        have h0 := endCycle_ok_pc m1 (by rw [hec])
        rw [hec] at h0
        exact h0
      show m.pc + 1 ≤ (m2.runProgram rest).2.pc
      have h0 := runProgram_pc_ge rest m2
      omega

theorem drainLoop_pc_ge (fuel : Nat) :
    ∀ m : Machine, m.pc ≤ (Machine.drainLoop fuel m).2.pc := by
  induction fuel with
  | zero => intro m; exact Nat.le_refl _
  | succ f ih =>
    intro m
    rw [Machine.drainLoop]
    by_cases hemp : m.pendingOperations.isEmpty = true
    · rw [if_pos hemp]
    · rw [if_neg hemp]
      rcases hec : m.endCycle with ⟨e2, m1⟩
      have hm1 : m.pc ≤ m1.pc := by
        have h0 := endCycle_pc_ge m
        rw [hec] at h0
        exact h0
      cases e2 with
      | some e => exact hm1
      | none =>
        show m.pc ≤ (Machine.drainLoop f m1).2.pc
        have h0 := ih m1
        omega

/-! ## Validation of the machine model against the unit tests of `machine.rs`

These theorems reproduce, inside the embedding, the expectations of
`test_add`, `test_sub`, `test_mul`, `test_str`, `test_terminated`,
`test_invalid_register`, `test_uninitialized_register`,
`test_uninitialized_memory` and `test_example_program`. -/

theorem modelValidation_add_sub_mul :
    ((Machine.new []).compute
        [Instruction.new.with_ldi 0 1, Instruction.new.with_ldi 1 8,
         Instruction.new.with_add 0 0 1]).1 = .ok (.add (.const 8) (.const 1)) ∧
    ((Machine.new []).compute
        [Instruction.new.with_ldi 0 1, Instruction.new.with_ldi 1 8,
         Instruction.new.with_add 0 0 1]).2.pc = 4 ∧
    ((Machine.new []).compute
        [Instruction.new.with_ldi 0 1, Instruction.new.with_ldi 1 8,
         Instruction.new.with_sub 0 1 0]).1 = .ok (.sub (.const 8) (.const 1)) ∧
    ((Machine.new []).compute
        [Instruction.new.with_ldi 0 2, Instruction.new.with_ldi 1 8,
         Instruction.new.with_mul 0 0 1]).2.pc = 12 := by
  decide

theorem modelValidation_errors :
    ((Machine.new []).compute [Instruction.new.with_ldi 8 0]).1
      = .error (.InvalidRegister 8 0) ∧
    ((Machine.new []).compute [Instruction.new.with_add 0 0 0]).1
      = .error (.UninitializedRegister 0 0) ∧
    ((Machine.new []).compute [Instruction.new.with_ldr 0 0]).1
      = .error (.UninitializedMemory 0 0) ∧
    (((Machine.new []).compute [Instruction.new.with_ldi 0 0]).2.compute
        [Instruction.new.with_ldi 0 0]).1 = .error .Terminated := by
  decide

theorem modelValidation_str :
    ((Machine.new []).compute
        [Instruction.new.with_ldi 0 1, Instruction.new.with_str 0 0]).2.pc = 6 ∧
    ((Machine.new []).compute
        [Instruction.new.with_ldi 0 1, Instruction.new.with_str 0 0]).2.getAddressValue 0
      = .ok (.const 1) := by
  decide

/-- The `mod.rs` leftover renderer swaps the operands of `Add` (its `eval`
of `a + b` prints `(b + a)`), unlike the `weak_eval` of `expr.rs` that the
repository's tests pin down; composed with `from_add`'s own swap it would
print the written sum as `(src1 + src2)`, contradicting `test_add`'s
expected `"(8 + 1)"`. -/
theorem modEvalExpr_add_swapped (a b : Expr) :
    modEvalExpr (.add a b) = "(" ++ modEvalExpr b ++ " + " ++ modEvalExpr a ++ ")" := rfl

/-! ## Claims -/

/-- C3: on a fresh machine with empty memory and `allow_data_race` false,
`compute` of `[ldi r0 1; add r1 r0 r0; ldi r1 3]` fails with
`RegisterDataRace { reg: 1, pc: 2, inst1: 1, inst2: 2 }`. -/
theorem c3_register_data_race :
    ((Machine.new []).compute raceProgram).1
      = .error (.RegisterDataRace 1 2 1 2) := by
  decide

/-- C4: every constructed `InflightOperation` has
`complete_by = issue cycle + latency` with the fixed latencies 1 (ldi),
5 (ldr), 5 (str), 2 (add), 2 (sub), 10 (mul), and records the issue cycle as
`started_at`. -/
theorem c4_latencies (cycle dst constant addr : Nat) (v v1 v2 : Expr) :
    ((InflightOperation.from_ldi cycle dst constant).complete_by = cycle + 1 ∧
      (InflightOperation.from_ldi cycle dst constant).started_at = cycle) ∧
    ((InflightOperation.from_ldr cycle dst v).complete_by = cycle + 5 ∧
      (InflightOperation.from_ldr cycle dst v).started_at = cycle) ∧
    ((InflightOperation.from_str cycle v addr).complete_by = cycle + 5 ∧
      (InflightOperation.from_str cycle v addr).started_at = cycle) ∧
    ((InflightOperation.from_add cycle dst v1 v2).complete_by = cycle + 2 ∧
      (InflightOperation.from_add cycle dst v1 v2).started_at = cycle) ∧
    ((InflightOperation.from_sub cycle dst v1 v2).complete_by = cycle + 2 ∧
      (InflightOperation.from_sub cycle dst v1 v2).started_at = cycle) ∧
    ((InflightOperation.from_mul cycle dst v1 v2).complete_by = cycle + 10 ∧
      (InflightOperation.from_mul cycle dst v1 v2).started_at = cycle) :=
  ⟨⟨rfl, rfl⟩, ⟨rfl, rfl⟩, ⟨rfl, rfl⟩, ⟨rfl, rfl⟩, ⟨rfl, rfl⟩, ⟨rfl, rfl⟩⟩

/-- C7: strong evaluation folds an `Add`/`Sub`/`Mul` node to a numeric
exactly when both direct operands folded to numerics, and applies no other
rewrite: `(1+2) - A` renders as `"3 - A"`, `1 + (2 - A)` as `"1 + 2 - A"`
(not `"3 - A"`), and `A*B - ((C+D) - (E*12))` as
`"A * B - (C + D - E * 12)"`. -/
theorem c7_partial_constant_folding :
    (∀ a b : Expr, (evaluatedExprFrom (.add a b)).isNumeric = true ↔
        (evaluatedExprFrom a).isNumeric = true ∧ (evaluatedExprFrom b).isNumeric = true) ∧
    (∀ a b : Expr, (evaluatedExprFrom (.sub a b)).isNumeric = true ↔
        (evaluatedExprFrom a).isNumeric = true ∧ (evaluatedExprFrom b).isNumeric = true) ∧
    (∀ a b : Expr, (evaluatedExprFrom (.mul a b)).isNumeric = true ↔
        (evaluatedExprFrom a).isNumeric = true ∧ (evaluatedExprFrom b).isNumeric = true) ∧
    strongEval (.sub (.add (.const 1) (.const 2)) (.symbolicVariable "A")) = "3 - A" ∧
    strongEval (.add (.const 1) (.sub (.const 2) (.symbolicVariable "A"))) = "1 + 2 - A" ∧
    strongEval (.sub (.mul (.symbolicVariable "A") (.symbolicVariable "B"))
        (.sub (.add (.symbolicVariable "C") (.symbolicVariable "D"))
          (.mul (.symbolicVariable "E") (.const 12))))
      = "A * B - (C + D - E * 12)" := by
  refine ⟨?_, ?_, ?_, by decide, by decide, by decide⟩
  · intro a b
    rw [show evaluatedExprFrom (.add a b)
          = (evaluatedExprFrom a).addEval (evaluatedExprFrom b) from rfl,
        addEval_isNumeric]
    exact iff_of_eq (Bool.and_eq_true _ _)
  · intro a b
    rw [show evaluatedExprFrom (.sub a b)
          = (evaluatedExprFrom a).subEval (evaluatedExprFrom b) from rfl,
        subEval_isNumeric]
    exact iff_of_eq (Bool.and_eq_true _ _)
  · intro a b
    rw [show evaluatedExprFrom (.mul a b)
          = (evaluatedExprFrom a).mulEval (evaluatedExprFrom b) from rfl,
        mulEval_isNumeric]
    exact iff_of_eq (Bool.and_eq_true _ _)

/-- C8: `weak_eval` renders `Add(a, b)` as `"(" ++ weak a ++ " + " ++
weak b ++ ")"`, `from_add` builds its output with `src2` as the left
operand, and hence the value written by `add dst, src1, src2` weak-evaluates
to `"(" ++ weak src2Value ++ " + " ++ weak src1Value ++ ")"`. -/
theorem c8_add_operand_order (a b : Expr) (cycle dst : Nat) (v1 v2 : Expr) :
    weakEval (.add a b) = "(" ++ weakEval a ++ " + " ++ weakEval b ++ ")" ∧
    (InflightOperation.from_add cycle dst v1 v2).output
      = .writeToRegister dst (.add v2 v1) ∧
    weakEval (InflightOperation.from_add cycle dst v1 v2).output.value
      = "(" ++ weakEval v2 ++ " + " ++ weakEval v1 ++ ")" :=
  ⟨rfl, rfl, rfl⟩

/-- C9: constant folding uses unsigned 32-bit wrapping arithmetic for all
three operators (`200 + (2^32−1) = 199`, `1 − 2 = 2^32−1`,
`3000000000 * 2 = 1705032704`), and for every expression tree whose leaves
are all numeric, strong evaluation yields the 32-bit-wrapping value of the
whole tree. -/
theorem c9_wrapping_arithmetic :
    evaluatedExprFrom (.add (.const 200) (.const 4294967295))
      = ⟨.numeric 199, .numericOrSymbolicVariable⟩ ∧
    evaluatedExprFrom (.sub (.const 1) (.const 2))
      = ⟨.numeric 4294967295, .numericOrSymbolicVariable⟩ ∧
    evaluatedExprFrom (.mul (.const 3000000000) (.const 2))
      = ⟨.numeric 1705032704, .numericOrSymbolicVariable⟩ ∧
    ∀ e : Expr, isNumericTree e = true →
      evaluatedExprFrom e = ⟨.numeric (wrapVal e).val, .numericOrSymbolicVariable⟩ ∧
      strongEval e = toString ((wrapVal e).val) := by
  refine ⟨by decide, by decide, by decide, ?_⟩
  intro e
  induction e with
  | const c =>
    intro h
    have hc : c < U32SIZE := by
      have := of_decide_eq_true h
      exact this
    constructor
    · show (⟨.numeric c, .numericOrSymbolicVariable⟩ : EvaluatedExpr) = _
      rw [show wrapVal (.const c) = (c : ZMod U32SIZE) from rfl, ZMod.val_natCast,
        Nat.mod_eq_of_lt hc]
    · show toString c = _
      rw [show wrapVal (.const c) = (c : ZMod U32SIZE) from rfl, ZMod.val_natCast,
        Nat.mod_eq_of_lt hc]
  | symbolicVariable s =>
    intro h
    exact absurd h (by simp [isNumericTree])
  | add a b iha ihb =>
    intro h
    rw [show isNumericTree (.add a b) = (isNumericTree a && isNumericTree b) from rfl,
      Bool.and_eq_true] at h
    have ha := (iha h.1).1
    have hb := (ihb h.2).1
    have hmain : evaluatedExprFrom (.add a b)
        = ⟨.numeric (wrapVal (.add a b)).val, .numericOrSymbolicVariable⟩ := by
      rw [show evaluatedExprFrom (.add a b)
            = (evaluatedExprFrom a).addEval (evaluatedExprFrom b) from rfl, ha, hb,
        show wrapVal (.add a b) = wrapVal a + wrapVal b from rfl, zmodVal_add]
      rfl
    exact ⟨hmain, by rw [show strongEval (.add a b) = (evaluatedExprFrom (.add a b)).render
        from rfl, hmain]; rfl⟩
  | sub a b iha ihb =>
    intro h
    rw [show isNumericTree (.sub a b) = (isNumericTree a && isNumericTree b) from rfl,
      Bool.and_eq_true] at h
    have ha := (iha h.1).1
    have hb := (ihb h.2).1
    have hmain : evaluatedExprFrom (.sub a b)
        = ⟨.numeric (wrapVal (.sub a b)).val, .numericOrSymbolicVariable⟩ := by
      rw [show evaluatedExprFrom (.sub a b)
            = (evaluatedExprFrom a).subEval (evaluatedExprFrom b) from rfl, ha, hb,
        show wrapVal (.sub a b) = wrapVal a - wrapVal b from rfl, zmodVal_sub]
      rfl
    exact ⟨hmain, by rw [show strongEval (.sub a b) = (evaluatedExprFrom (.sub a b)).render
        from rfl, hmain]; rfl⟩
  | mul a b iha ihb =>
    intro h
    rw [show isNumericTree (.mul a b) = (isNumericTree a && isNumericTree b) from rfl,
      Bool.and_eq_true] at h
    have ha := (iha h.1).1
    have hb := (ihb h.2).1
    have hmain : evaluatedExprFrom (.mul a b)
        = ⟨.numeric (wrapVal (.mul a b)).val, .numericOrSymbolicVariable⟩ := by
      rw [show evaluatedExprFrom (.mul a b)
            = (evaluatedExprFrom a).mulEval (evaluatedExprFrom b) from rfl, ha, hb,
        show wrapVal (.mul a b) = wrapVal a * wrapVal b from rfl, zmodVal_mul]
      rfl
    exact ⟨hmain, by rw [show strongEval (.mul a b) = (evaluatedExprFrom (.mul a b)).render
        from rfl, hmain]; rfl⟩

/-- Witness for `c9_wrapping_arithmetic` at the concrete numeric tree
`1 - 2`. -/
theorem c9_wrapping_arithmetic_witness :
    isNumericTree (.sub (.const 1) (.const 2)) = true ∧
    evaluatedExprFrom (.sub (.const 1) (.const 2))
      = ⟨.numeric (wrapVal (.sub (.const 1) (.const 2))).val, .numericOrSymbolicVariable⟩ :=
  ⟨by decide, (c9_wrapping_arithmetic.2.2.2 (.sub (.const 1) (.const 2)) (by decide)).1⟩

/-- C2 (counterexample): a reachable end-of-cycle pass pops a memory write
before two register writes with the same `complete_by`, and pops register 2
before register 1 — the heap's tie order is memory before registers and
descending id, not registers before memory and ascending id.  The state is
reached by issuing `mixedRetireProgram` on a fresh machine whose memory cell
0 holds `A`. -/
theorem c2_counterexample_memory_pops_first :
    (((Machine.new [(0, Expr.symbolicVariable "A")]).runProgram mixedRetireProgram).1
      = none) ∧
    mixedRetireMachine.pc = 5 ∧
    mixedRetireMachine.endCycleTrace =
      [InflightOperation.from_str 1 (.const 1) 9,
       InflightOperation.from_add 4 2 (.const 1) (.const 1),
       InflightOperation.from_ldr 1 1 (.symbolicVariable "A")] ∧
    (InflightOperation.from_str 1 (.const 1) 9).output = .writeToMemory 9 (.const 1) ∧
    (InflightOperation.from_add 4 2 (.const 1) (.const 1)).output
      = .writeToRegister 2 (.add (.const 1) (.const 1)) ∧
    (InflightOperation.from_ldr 1 1 (.symbolicVariable "A")).output
      = .writeToRegister 1 (.symbolicVariable "A") ∧
    (InflightOperation.from_str 1 (.const 1) 9).complete_by = 6 ∧
    (InflightOperation.from_add 4 2 (.const 1) (.const 1)).complete_by = 6 ∧
    (InflightOperation.from_ldr 1 1 (.symbolicVariable "A")).complete_by = 6 := by
  decide

/-- C2 (amended): within one end-of-cycle pass, in-flight operations are
popped in ascending `complete_by`, and among operations with equal
`complete_by`, memory writes retire before register writes and, within each
kind, in *descending* order of destination id; every popped operation has
`complete_by ≤ pc + 1`. -/
theorem c2_amended_retire_order (m : Machine)
    (h : heapOrdered m.pendingOperations) :
    m.endCycleTrace.Pairwise retiresNoLaterThan ∧
    ∀ op ∈ m.endCycleTrace, op.complete_by ≤ m.pc + 1 := by
  constructor
  · have hpre := endCycleLoop_popped_prefix m.allowDataRace m.pc
      m.pendingOperations none m.regs m.mem
    have hsub := hpre.sublist
    unfold heapOrdered at h
    exact (List.Pairwise.sublist hsub h).imp
      (fun hab => cmp_ne_lt_retiresNoLaterThan _ _ hab)
  · intro op hop
    exact endCycleLoop_popped_le m.allowDataRace m.pc
      m.pendingOperations none m.regs m.mem op hop

/-- Witness for `c2_amended_retire_order` at the concrete machine state
reached by `mixedRetireProgram`. -/
theorem c2_amended_retire_order_witness :
    heapOrdered mixedRetireMachine.pendingOperations ∧
    mixedRetireMachine.endCycleTrace.Pairwise retiresNoLaterThan :=
  ⟨by decide, (c2_amended_retire_order mixedRetireMachine (by decide)).1⟩

/-- C6 (counterexample): the designated program family — two successive
instructions each containing a `str` to the same memory address — does not
fail with `MemoryDataRace`: `[ldi r0 1; str r0 0; str r0 0]` computes
successfully. -/
theorem c6_counterexample_no_memory_race :
    ((Machine.new []).compute (twoStrProgram 1 0)).1 = .ok (.const 1) := by
  decide

set_option maxHeartbeats 1600000 in
/-- C6 (amended): `str` operations issued on successive cycles complete on
different cycles (both have latency 5), so two successive `str` instructions
to the same address never race: for every constant and address the program
`[ldi r0 c; str r0 a; str r0 a]` computes `Ok` (and in particular never
fails with `MemoryDataRace`). -/
theorem c6_amended_successive_str_no_race :
    (∀ (cyc : Nat) (v v2 : Expr) (a : Nat),
      (InflightOperation.from_str cyc v a).complete_by
        ≠ (InflightOperation.from_str (cyc + 1) v2 a).complete_by) ∧
    (∀ c a : Nat, ((Machine.new []).compute (twoStrProgram c a)).1 = .ok (.const c)) := by
  constructor
  · intro cyc v v2 a
    show cyc + OperationLatency.STR ≠ cyc + 1 + OperationLatency.STR
    unfold OperationLatency.STR
    omega
  · intro c a
    rfl

/-- C1 (counterexample): a `compute` that fails before any cycle ends leaves
`pc = 0`, so the machine is *not* terminated: after `compute([])` returns
`Err(UninitializedRegister)`, a second `compute` on the same machine runs to
completion instead of failing with `Terminated`. -/
theorem c1_counterexample_failed_compute_not_terminated :
    ((Machine.new []).compute []).1 = .error (.UninitializedRegister 0 0) ∧
    ((Machine.new []).compute []).2.pc = 0 ∧
    (((Machine.new []).compute []).2.compute [Instruction.new.with_ldi 0 1]).1
      = .ok (.const 1) := by
  decide

/-- C1 (amended): a machine whose clock has advanced (`pc ≠ 0`) always fails
`compute` with `Terminated`; and after a `compute` on a fresh machine
returns `Ok`, the clock has advanced, so every subsequent `compute` on that
machine fails with `Terminated`.  (A `compute` that returns `Err` before the
first cycle ends — empty program, or an issue failure at instruction 0 —
leaves `pc = 0` and does not arm the guard.) -/
theorem c1_amended_single_use :
    (∀ (m : Machine) (q : List Instruction), m.pc ≠ 0 →
      (m.compute q).1 = .error .Terminated) ∧
    (∀ (mem0 : List (Nat × Expr)) (p : List Instruction) (r : Expr) (m' : Machine),
      (Machine.new mem0).compute p = (.ok r, m') →
      ∀ q : List Instruction, (m'.compute q).1 = .error .Terminated) := by
  have guard : ∀ (m : Machine) (q : List Instruction), m.pc ≠ 0 →
      (m.compute q).1 = .error .Terminated := by
    intro m q h
    unfold Machine.compute
    rw [if_pos h]
  refine ⟨guard, ?_⟩
  intro mem0 p r m' h q
  apply guard
  cases p with
  | nil =>
    exfalso
    have hnil : (Machine.new mem0).compute []
        = (.error (.UninitializedRegister 0 0), Machine.new mem0) := rfl
    rw [hnil] at h
    exact Except.noConfusion (congrArg Prod.fst h)
  | cons i rest =>
    unfold Machine.compute at h
    rw [if_neg (show ¬(Machine.new mem0).pc ≠ 0 from fun hh => hh rfl)] at h
    rcases hrp : (Machine.new mem0).runProgram (i :: rest) with ⟨e1, m2⟩
    rw [hrp] at h
    cases e1 with
    | some e => exact absurd (congrArg Prod.fst h) (by simp)
    | none =>
      have hpc2 : 1 ≤ m2.pc := by
        have h0 := runProgram_cons_ok_pc (Machine.new mem0) i rest (by rw [hrp])
        rw [hrp] at h0
        exact h0
      replace h : (match m2.drain with
        | (some e, m3) => (Except.error e, m3)
        | (none, m3) =>
          match m3.getRegisterValue 0 with
          | .error e => (.error e, m3)
          | .ok v => (.ok v, m3)) = (Except.ok r, m') := h
      rcases hd : m2.drain with ⟨e2, m3⟩
      rw [hd] at h
      have hpc3 : m2.pc ≤ m3.pc := by
        have h0 := drainLoop_pc_ge (Machine.maxCompleteBy m2.pendingOperations + 2) m2
        rw [show Machine.drainLoop (Machine.maxCompleteBy m2.pendingOperations + 2) m2
            = m2.drain from rfl, hd] at h0
        exact h0
      cases e2 with
      | some e => exact absurd (congrArg Prod.fst h) (by simp)
      | none =>
        replace h : (match m3.getRegisterValue 0 with
          | .error e => (Except.error e, m3)
          | .ok v => (Except.ok v, m3)) = (Except.ok r, m') := h
        rcases hg : m3.getRegisterValue 0 with e3 | v
        · rw [hg] at h
          exact absurd (congrArg Prod.fst h) (by simp)
        · rw [hg] at h
          have hm' : m' = m3 := (congrArg Prod.snd h).symm
          rw [hm']
          omega

/-- Witness for `c1_amended_single_use`: `compute [ldi r0 1]` on a fresh
machine returns `Ok` and leaves `postLdiMachine`, whose next `compute` fails
with `Terminated`. -/
theorem c1_amended_single_use_witness :
    ((Machine.new []).compute [Instruction.new.with_ldi 0 1]
      = (.ok (.const 1), postLdiMachine)) ∧
    (postLdiMachine.compute []).1 = .error .Terminated :=
  ⟨by decide,
   c1_amended_single_use.2 [] [Instruction.new.with_ldi 0 1] (.const 1) postLdiMachine
     (by decide) []⟩

theorem validatedRegister_ok (m : Machine) (reg d : Nat)
    (h : m.validatedRegister reg = .ok d) : d = reg := by
  unfold Machine.validatedRegister at h
  by_cases hr : reg ≥ REGISTER_COUNT
  · rw [if_pos hr] at h
    exact absurd h (by simp)
  · rw [if_neg hr] at h
    exact (Except.ok.inj h).symm

theorem getRegisterValue_invalid (m : Machine) (reg : Nat)
    (hlen : m.regs.length = REGISTER_COUNT) (hreg : REGISTER_COUNT ≤ reg) :
    m.getRegisterValue reg = .error (.InvalidRegister reg m.pc) := by
  unfold Machine.getRegisterValue
  rw [List.get?_eq_none.mpr (by omega)]

theorem andThenPush_none (acc : Option ComputeError × List InflightOperation)
    (f : List InflightOperation → Option ComputeError × List InflightOperation)
    (h : (Machine.andThenPush acc f).1 = none) :
    acc.1 = none ∧ Machine.andThenPush acc f = f acc.2 := by
  rcases acc with ⟨e, p⟩
  cases e with
  | some e => exact absurd h (by simp [Machine.andThenPush])
  | none => exact ⟨rfl, rfl⟩

theorem pushLdi_mono (m : Machine) (slot : Option (Nat × Nat))
    (p : List InflightOperation) (x : InflightOperation) (hx : x ∈ p) :
    x ∈ (m.pushLdi slot p).2 := by
  cases slot with
  | none => exact hx
  | some dc =>
    rcases dc with ⟨dst, c⟩
    simp only [Machine.pushLdi]
    rcases hv : m.validatedRegister dst with e | d
    · exact hx
    · exact mem_heapPush_of_mem _ hx

theorem pushLdr_mono (m : Machine) (slot : Option (Nat × Nat))
    (p : List InflightOperation) (x : InflightOperation) (hx : x ∈ p) :
    x ∈ (m.pushLdr slot p).2 := by
  cases slot with
  | none => exact hx
  | some dc =>
    rcases dc with ⟨dst, addr⟩
    simp only [Machine.pushLdr]
    rcases hv : m.validatedRegister dst with e | d
    · exact hx
    · rcases ha : m.getAddressValue addr with e | v
      · exact hx
      · exact mem_heapPush_of_mem _ hx

theorem pushStr_mono (m : Machine) (slot : Option (Nat × Nat))
    (p : List InflightOperation) (x : InflightOperation) (hx : x ∈ p) :
    x ∈ (m.pushStr slot p).2 := by
  cases slot with
  | none => exact hx
  | some dc =>
    rcases dc with ⟨src, addr⟩
    simp only [Machine.pushStr]
    rcases hv : m.getRegisterValue src with e | v
    · exact hx
    · exact mem_heapPush_of_mem _ hx

theorem pushAdd_mono (m : Machine) (slot : Option (Nat × Nat × Nat))
    (p : List InflightOperation) (x : InflightOperation) (hx : x ∈ p) :
    x ∈ (m.pushAdd slot p).2 := by
  cases slot with
  | none => exact hx
  | some dc =>
    rcases dc with ⟨dst, s1, s2⟩
    simp only [Machine.pushAdd]
    rcases hv : m.validatedRegister dst with e | d
    · exact hx
    · rcases h1 : m.getRegisterValue s1 with e | v1
      · exact hx
      · rcases h2 : m.getRegisterValue s2 with e | v2
        · exact hx
        · exact mem_heapPush_of_mem _ hx

theorem pushSub_mono (m : Machine) (slot : Option (Nat × Nat × Nat))
    (p : List InflightOperation) (x : InflightOperation) (hx : x ∈ p) :
    x ∈ (m.pushSub slot p).2 := by
  cases slot with
  | none => exact hx
  | some dc =>
    rcases dc with ⟨dst, s1, s2⟩
    simp only [Machine.pushSub]
    rcases hv : m.validatedRegister dst with e | d
    · exact hx
    · rcases h1 : m.getRegisterValue s1 with e | v1
      · exact hx
      · rcases h2 : m.getRegisterValue s2 with e | v2
        · exact hx
        · exact mem_heapPush_of_mem _ hx

theorem pushMul_mono (m : Machine) (slot : Option (Nat × Nat × Nat))
    (p : List InflightOperation) (x : InflightOperation) (hx : x ∈ p) :
    x ∈ (m.pushMul slot p).2 := by
  cases slot with
  | none => exact hx
  | some dc =>
    rcases dc with ⟨dst, s1, s2⟩
    simp only [Machine.pushMul]
    rcases hv : m.validatedRegister dst with e | d
    · exact hx
    · rcases h1 : m.getRegisterValue s1 with e | v1
      · exact hx
      · rcases h2 : m.getRegisterValue s2 with e | v2
        · exact hx
        · exact mem_heapPush_of_mem _ hx

theorem pushLdr_ok_mem (m : Machine) (slot : Option (Nat × Nat))
    (p : List InflightOperation) (dst addr : Nat) (v : Expr)
    (hslot : slot = some (dst, addr))
    (h : (m.pushLdr slot p).1 = none) (hv : m.getAddressValue addr = .ok v) :
    InflightOperation.from_ldr m.pc dst v ∈ (m.pushLdr slot p).2 := by
  subst hslot
  simp only [Machine.pushLdr] at h ⊢
  rcases hvd : m.validatedRegister dst with e | d
  · rw [hvd] at h
    exact absurd h (by simp)
  · have hd := validatedRegister_ok m dst d hvd
    subst hd
    rw [hv]
    exact mem_heapPush_self _ _

theorem pushStr_ok_mem (m : Machine) (slot : Option (Nat × Nat))
    (p : List InflightOperation) (src addr : Nat) (v : Expr)
    (hslot : slot = some (src, addr))
    (hv : m.getRegisterValue src = .ok v) :
    InflightOperation.from_str m.pc v addr ∈ (m.pushStr slot p).2 := by
  subst hslot
  simp only [Machine.pushStr]
  rw [hv]
  exact mem_heapPush_self _ _

theorem pushAdd_ok_mem (m : Machine) (slot : Option (Nat × Nat × Nat))
    (p : List InflightOperation) (dst s1 s2 : Nat) (v1 v2 : Expr)
    (hslot : slot = some (dst, s1, s2))
    (h : (m.pushAdd slot p).1 = none)
    (hv1 : m.getRegisterValue s1 = .ok v1) (hv2 : m.getRegisterValue s2 = .ok v2) :
    InflightOperation.from_add m.pc dst v1 v2 ∈ (m.pushAdd slot p).2 := by
  subst hslot
  simp only [Machine.pushAdd] at h ⊢
  rcases hvd : m.validatedRegister dst with e | d
  · rw [hvd] at h
    exact absurd h (by simp)
  · have hd := validatedRegister_ok m dst d hvd
    subst hd
    rw [hv1, hv2]
    exact mem_heapPush_self _ _

theorem pushSub_ok_mem (m : Machine) (slot : Option (Nat × Nat × Nat))
    (p : List InflightOperation) (dst s1 s2 : Nat) (v1 v2 : Expr)
    (hslot : slot = some (dst, s1, s2))
    (h : (m.pushSub slot p).1 = none)
    (hv1 : m.getRegisterValue s1 = .ok v1) (hv2 : m.getRegisterValue s2 = .ok v2) :
    InflightOperation.from_sub m.pc dst v1 v2 ∈ (m.pushSub slot p).2 := by
  subst hslot
  simp only [Machine.pushSub] at h ⊢
  rcases hvd : m.validatedRegister dst with e | d
  · rw [hvd] at h
    exact absurd h (by simp)
  · have hd := validatedRegister_ok m dst d hvd
    subst hd
    rw [hv1, hv2]
    exact mem_heapPush_self _ _

theorem pushMul_ok_mem (m : Machine) (slot : Option (Nat × Nat × Nat))
    (p : List InflightOperation) (dst s1 s2 : Nat) (v1 v2 : Expr)
    (hslot : slot = some (dst, s1, s2))
    (h : (m.pushMul slot p).1 = none)
    (hv1 : m.getRegisterValue s1 = .ok v1) (hv2 : m.getRegisterValue s2 = .ok v2) :
    InflightOperation.from_mul m.pc dst v1 v2 ∈ (m.pushMul slot p).2 := by
  subst hslot
  simp only [Machine.pushMul] at h ⊢
  rcases hvd : m.validatedRegister dst with e | d
  · rw [hvd] at h
    exact absurd h (by simp)
  · have hd := validatedRegister_ok m dst d hvd
    subst hd
    rw [hv1, hv2]
    exact mem_heapPush_self _ _

/-- C5: issuing an instruction reads every source operand from the machine
state as it stands at the start of the issue cycle and performs no register
or memory write: `begin_execution` leaves `regs`, `mem` and `pc` untouched,
and whenever it succeeds, each present slot pushes an in-flight operation
whose captured expression is exactly the entry-state value of its operands
(so sub-operations of one instruction never observe each other's writes, and
later retirements cannot change an already-captured value). -/
theorem c5_operands_read_at_issue (m : Machine) (inst : Instruction) :
    ((m.beginExecution inst).2.regs = m.regs ∧
     (m.beginExecution inst).2.mem = m.mem ∧
     (m.beginExecution inst).2.pc = m.pc) ∧
    ((m.beginExecution inst).1 = none →
      (∀ dst addr v, inst.ldr = some (dst, addr) → m.getAddressValue addr = .ok v →
        InflightOperation.from_ldr m.pc dst v ∈ (m.beginExecution inst).2.pendingOperations) ∧
      (∀ src addr v, inst.str = some (src, addr) → m.getRegisterValue src = .ok v →
        InflightOperation.from_str m.pc v addr ∈ (m.beginExecution inst).2.pendingOperations) ∧
      (∀ dst s1 s2 v1 v2, inst.add = some (dst, s1, s2) →
        m.getRegisterValue s1 = .ok v1 → m.getRegisterValue s2 = .ok v2 →
        InflightOperation.from_add m.pc dst v1 v2
          ∈ (m.beginExecution inst).2.pendingOperations) ∧
      (∀ dst s1 s2 v1 v2, inst.sub = some (dst, s1, s2) →
        m.getRegisterValue s1 = .ok v1 → m.getRegisterValue s2 = .ok v2 →
        InflightOperation.from_sub m.pc dst v1 v2
          ∈ (m.beginExecution inst).2.pendingOperations) ∧
      (∀ dst s1 s2 v1 v2, inst.mul = some (dst, s1, s2) →
        m.getRegisterValue s1 = .ok v1 → m.getRegisterValue s2 = .ok v2 →
        InflightOperation.from_mul m.pc dst v1 v2
          ∈ (m.beginExecution inst).2.pendingOperations)) := by
  refine ⟨⟨rfl, rfl, rfl⟩, ?_⟩
  intro h0
  have h0' : (Machine.andThenPush (Machine.andThenPush (Machine.andThenPush
      (Machine.andThenPush (Machine.andThenPush
        (m.pushLdi inst.ldi m.pendingOperations)
        (m.pushLdr inst.ldr)) (m.pushStr inst.str)) (m.pushAdd inst.add))
      (m.pushSub inst.sub)) (m.pushMul inst.mul)).1 = none := h0
  obtain ⟨hc5ok, hwhole⟩ := andThenPush_none _ _ h0'
  obtain ⟨hc4ok, hc5eq⟩ := andThenPush_none _ _ hc5ok
  obtain ⟨hc3ok, hc4eq⟩ := andThenPush_none _ _ hc4ok
  obtain ⟨hc2ok, hc3eq⟩ := andThenPush_none _ _ hc3ok
  obtain ⟨hc1ok, hc2eq⟩ := andThenPush_none _ _ hc2ok
  rw [hc2eq] at hc2ok
  rw [hc4eq, hc3eq, hc2eq] at hc4ok
  rw [hc5eq, hc4eq, hc3eq, hc2eq] at hc5ok
  rw [hwhole, hc5eq, hc4eq, hc3eq, hc2eq] at h0'
  have hpend : (m.beginExecution inst).2.pendingOperations
      = (m.pushMul inst.mul
          (m.pushSub inst.sub
            (m.pushAdd inst.add
              (m.pushStr inst.str
                (m.pushLdr inst.ldr
                  (m.pushLdi inst.ldi m.pendingOperations).2).2).2).2).2).2 := by
    show (Machine.andThenPush (Machine.andThenPush (Machine.andThenPush
      (Machine.andThenPush (Machine.andThenPush
        (m.pushLdi inst.ldi m.pendingOperations)
        (m.pushLdr inst.ldr)) (m.pushStr inst.str)) (m.pushAdd inst.add))
      (m.pushSub inst.sub)) (m.pushMul inst.mul)).2 = _
    rw [hwhole, hc5eq, hc4eq, hc3eq, hc2eq]
  refine ⟨?_, ?_, ?_, ?_, ?_⟩
  · intro dst addr v hslot hv
    rw [hpend]
    exact pushMul_mono _ _ _ _ (pushSub_mono _ _ _ _ (pushAdd_mono _ _ _ _
      (pushStr_mono _ _ _ _ (pushLdr_ok_mem _ _ _ _ _ _ hslot hc2ok hv))))
  · intro src addr v hslot hv
    rw [hpend]
    exact pushMul_mono _ _ _ _ (pushSub_mono _ _ _ _ (pushAdd_mono _ _ _ _
      (pushStr_ok_mem _ _ _ _ _ _ hslot hv)))
  · intro dst s1 s2 v1 v2 hslot hv1 hv2
    rw [hpend]
    exact pushMul_mono _ _ _ _ (pushSub_mono _ _ _ _
      (pushAdd_ok_mem _ _ _ _ _ _ _ _ hslot hc4ok hv1 hv2))
  · intro dst s1 s2 v1 v2 hslot hv1 hv2
    rw [hpend]
    exact pushMul_mono _ _ _ _ (pushSub_ok_mem _ _ _ _ _ _ _ _ hslot hc5ok hv1 hv2)
  · intro dst s1 s2 v1 v2 hslot hv1 hv2
    rw [hpend]
    exact pushMul_ok_mem _ _ _ _ _ _ _ _ hslot h0' hv1 hv2

/-- Witness for `c5_operands_read_at_issue`: a machine holding the symbol
`X` in register 0, issuing `{ldi r0 7 ∥ add r1 r0 r0}`: the pushed `add`
captures `X + X` from the entry state (not the `ldi`'s 7), and the issue
leaves the register file unchanged. -/
theorem c5_operands_read_at_issue_witness :
    (c5WitnessMachine.beginExecution c5WitnessInst).1 = none ∧
    (c5WitnessMachine.beginExecution c5WitnessInst).2.regs = c5WitnessMachine.regs ∧
    c5WitnessMachine.getRegisterValue 0 = .ok (.symbolicVariable "X") ∧
    InflightOperation.from_add 0 1 (.symbolicVariable "X") (.symbolicVariable "X")
      ∈ (c5WitnessMachine.beginExecution c5WitnessInst).2.pendingOperations := by
  refine ⟨by decide, (c5_operands_read_at_issue c5WitnessMachine c5WitnessInst).1.1,
    by decide, ?_⟩
  exact ((c5_operands_read_at_issue c5WitnessMachine c5WitnessInst).2 (by decide)).2.2.1
    1 0 0 (.symbolicVariable "X") (.symbolicVariable "X") rfl (by decide) (by decide)

/-- C10: a source register operand with id 8 or greater (for `str`, `add`,
`sub`, `mul`) makes the issue fail with `InvalidRegister { reg, pc }` — the
same error kind as an out-of-range destination — not with
`UninitializedRegister`: `Vec::get` on the 8-entry register file returns
`None` for such ids, which `get_register_value` maps to `InvalidRegister`. -/
theorem c10_invalid_source_register :
    (∀ (m : Machine) (reg : Nat), m.regs.length = REGISTER_COUNT →
      REGISTER_COUNT ≤ reg →
      m.getRegisterValue reg = .error (.InvalidRegister reg m.pc)) ∧
    (∀ (m : Machine) (src addr : Nat), m.regs.length = REGISTER_COUNT →
      REGISTER_COUNT ≤ src →
      (m.beginExecution (Instruction.new.with_str src addr)).1
        = some (.InvalidRegister src m.pc)) ∧
    (∀ (m : Machine) (dst s1 s2 : Nat) (v1 : Expr), m.regs.length = REGISTER_COUNT →
      dst < REGISTER_COUNT → m.getRegisterValue s1 = .ok v1 → REGISTER_COUNT ≤ s2 →
      (m.beginExecution (Instruction.new.with_add dst s1 s2)).1
        = some (.InvalidRegister s2 m.pc)) := by
  refine ⟨fun m reg hlen hreg => getRegisterValue_invalid m reg hlen hreg, ?_, ?_⟩
  · intro m src addr hlen hsrc
    simp only [Machine.beginExecution, Instruction.new, Instruction.with_str,
      Machine.pushLdi, Machine.pushLdr, Machine.pushStr, Machine.pushAdd,
      Machine.pushSub, Machine.pushMul, Machine.andThenPush,
      getRegisterValue_invalid m src hlen hsrc]
  · intro m dst s1 s2 v1 hlen hdst hv1 hs2
    simp only [Machine.beginExecution, Instruction.new, Instruction.with_add,
      Machine.pushLdi, Machine.pushLdr, Machine.pushStr, Machine.pushAdd,
      Machine.pushSub, Machine.pushMul, Machine.andThenPush, hv1,
      getRegisterValue_invalid m s2 hlen hs2]
    rw [show m.validatedRegister dst = .ok dst from by
      unfold Machine.validatedRegister
      rw [if_neg (by omega)]]

/-- Witness for `c10_invalid_source_register` at a concrete machine and the
instructions `str r9, 0` and `add r1, r0, r8`. -/
theorem c10_invalid_source_register_witness :
    c5WitnessMachine.regs.length = REGISTER_COUNT ∧
    c5WitnessMachine.getRegisterValue 9 = .error (.InvalidRegister 9 0) ∧
    (c5WitnessMachine.beginExecution (Instruction.new.with_str 9 0)).1
      = some (.InvalidRegister 9 0) ∧
    (c5WitnessMachine.beginExecution (Instruction.new.with_add 1 0 8)).1
      = some (.InvalidRegister 8 0) := by
  refine ⟨by decide, ?_, ?_, ?_⟩
  · exact c10_invalid_source_register.1 c5WitnessMachine 9 (by decide) (by decide)
  · exact c10_invalid_source_register.2.1 c5WitnessMachine 9 0 (by decide) (by decide)
  · exact c10_invalid_source_register.2.2 c5WitnessMachine 1 0 8 (.symbolicVariable "X")
      (by decide) (by decide) (by decide) (by decide)
